import Mathlib

/-!
Verification of the claude-code-proxy repository: a shallow embedding of
`src/api/endpoints.py` (client-key validation, WebSearch tool-call
interception, token counting) and `src/utils/exa_search.py` (the Exa
search adapter), together with theorems checking the design document's
testable properties against that embedding.
-/

set_option maxRecDepth 4096

/-! ## JSON values and serialization (models Python dict/list values and `json.dumps`) -/

inductive Json where
  | null : Json
  | bool (b : Bool) : Json
  | num (n : Int) : Json
  | str (s : String) : Json
  | arr (xs : List Json) : Json
  | obj (kvs : List (String × Json)) : Json

/-- Escape one character the way `json.dumps` does for the characters that
can occur in this code base (quote, backslash, common control characters). -/
def jsonEscapeChar (c : Char) : String :=
  if c = '"' then "\\\""
  else if c = '\\' then "\\\\"
  else if c = '\n' then "\\n"
  else if c = '\t' then "\\t"
  else if c = '\r' then "\\r"
  else String.singleton c

def jsonEscape (s : String) : String :=
  String.join (s.toList.map jsonEscapeChar)

mutual

/-- Models `json.dumps` with its default separators (", " and ": "). -/
def Json.dumps : Json → String
  | .null => "null"
  | .bool true => "true"
  | .bool false => "false"
  | .num n => toString n
  | .str s => "\"" ++ jsonEscape s ++ "\""
  | .arr xs => "[" ++ Json.dumpsArr xs ++ "]"
  | .obj kvs => "\x7b" ++ Json.dumpsObj kvs ++ "\x7d"

def Json.dumpsArr : List Json → String
  | [] => ""
  | [x] => Json.dumps x
  | x :: y :: rest => Json.dumps x ++ ", " ++ Json.dumpsArr (y :: rest)

def Json.dumpsObj : List (String × Json) → String
  | [] => ""
  | [(k, v)] => "\"" ++ jsonEscape k ++ "\": " ++ Json.dumps v
  | (k, v) :: kv :: rest =>
      "\"" ++ jsonEscape k ++ "\": " ++ Json.dumps v ++ ", " ++ Json.dumpsObj (kv :: rest)

end

/-- Python truthiness of a JSON-like value (`if allowed_domains:` etc.). -/
def Json.truthy : Json → Bool
  | .null => false
  | .bool b => b
  | .num n => n != 0
  | .str s => s != ""
  | .arr xs => !xs.isEmpty
  | .obj kvs => !kvs.isEmpty

/-! ## Message model (the Claude-dialect structures the endpoints consume) -/

/-- Content block of a Claude message: text, tool_use (whose `input` is a
JSON object, i.e. a Python dict), tool_result (whose `content` is an
arbitrary JSON value; the code only acts when it is a string), and a
pass-through constructor for the remaining kinds (thinking etc.), which
have no `text`, `name`, `tool_use_id` or `content` attributes used here. -/
inductive ContentBlock where
  | text (text : String) : ContentBlock
  | toolUse (id name : String) (input : List (String × Json)) : ContentBlock
  | toolResult (toolUseId : String) (content : Json) : ContentBlock
  | other (kind : String) (payload : Json) : ContentBlock

/-- A message's `content` field: absent (None), a plain string, or a block list. -/
inductive MessageContent where
  | none : MessageContent
  | str (s : String) : MessageContent
  | blocks (bs : List ContentBlock) : MessageContent

structure Message where
  role : String
  content : MessageContent

/-- The `system` field of a request: a string or a list of blocks. -/
inductive SystemField where
  | str (s : String) : SystemField
  | blocks (bs : List ContentBlock) : SystemField

/-! ## Placeholder heuristic and trigger condition (endpoints.py lines 67-89) -/

/-- `pat` occurs as a contiguous sublist of `l`. -/
def listInfixOf (pat : List Char) : List Char → Bool
  | [] => pat.isEmpty
  | c :: cs => pat.isPrefixOf (c :: cs) || listInfixOf pat cs

/-- Python's `pat in s` substring test. -/
def containsSubstr (pat s : String) : Bool :=
  listInfixOf pat.toList s.toList

/-- The inline heuristic at endpoints.py line 89: the tool_result content is
a placeholder / failed search. -/
def isPlaceholder (s : String) : Bool :=
  containsSubstr "API Error" s || containsSubstr "Did 0 searches" s ||
    containsSubstr "Web search results" s

/-- One (assistant block, user block) pair satisfies the innermost trigger:
a WebSearch `tool_use` matched by a `tool_result` with the same correlation
id whose content is a placeholder string. -/
def pairTriggers : ContentBlock → ContentBlock → Bool
  | .toolUse id name _, .toolResult tid (.str s) =>
      name == "WebSearch" && tid == id && isPlaceholder s
  | _, _ => false

/-- The full trigger condition of spec §4.1 on a conversation: at least two
messages, roles assistant/user, both block-structured, and some pair triggers. -/
def triggerCondition (msgs : List Message) : Bool :=
  match msgs.reverse with
  | u :: a :: _ =>
      a.role == "assistant" && u.role == "user" &&
        (match a.content, u.content with
         | .blocks ab, .blocks ub => ab.any fun tu => ub.any fun tr => pairTriggers tu tr
         | _, _ => false)
  | _ => false

/-! ## The interceptor (endpoints.py, `intercept_websearch_in_request`)

The search adapter is passed as a function `adapter`; a Python exception
raised by the awaited call is modelled by `Except.error`.  Alongside the
updated message list the embedding counts the number of adapter invocations
and the number of times the `except` branch ran. -/

/-- The body of the innermost loop: processing one user block against one
WebSearch `tool_use` block (endpoints.py lines 80-106).  Returns the
(possibly replaced) block, the number of search calls made (0 or 1) and the
number of times the exception handler ran (0 or 1). -/
def processBlock (adapter : List (String × Json) → Except String Json)
    (tuId : String) (input : List (String × Json)) (b : ContentBlock) :
    ContentBlock × Nat × Nat :=
  match b with
  | .toolResult tid c =>
      if tid = tuId then
        match c with
        | .str s =>
            if isPlaceholder s then
              match adapter input with
              | .ok res => (.toolResult tid (.str (Json.dumps res)), 1, 0)
              | .error e =>
                  (.toolResult tid (.str (Json.dumps (.obj
                    [("error", .str ("Search failed: " ++ e)), ("results", .arr [])]))), 1, 1)
            else (b, 0, 0)
        | _ => (b, 0, 0)
      else (b, 0, 0)
  | _ => (b, 0, 0)

/-- The inner `for user_block in last.content` loop for one tool_use block. -/
def processInner (adapter : List (String × Json) → Except String Json)
    (tuId : String) (input : List (String × Json)) :
    List ContentBlock → List ContentBlock × Nat × Nat
  | [] => ([], 0, 0)
  | b :: bs =>
      let r1 := processBlock adapter tuId input b
      let r2 := processInner adapter tuId input bs
      (r1.1 :: r2.1, r1.2.1 + r2.2.1, r1.2.2 + r2.2.2)

/-- The outer `for assistant_block in second_last.content` loop; the user
blocks are threaded through because the Python code mutates them in place. -/
def processOuter (adapter : List (String × Json) → Except String Json) :
    List ContentBlock → List ContentBlock → List ContentBlock × Nat × Nat
  | [], ub => (ub, 0, 0)
  | ab0 :: abs, ub =>
      match ab0 with
      | .toolUse id name input =>
          if name = "WebSearch" then
            let r1 := processInner adapter id input ub
            let r2 := processOuter adapter abs r1.1
            (r2.1, r1.2.1 + r2.2.1, r1.2.2 + r2.2.2)
          else processOuter adapter abs ub
      | _ => processOuter adapter abs ub

/-- `intercept_websearch_in_request` (endpoints.py lines 51-108).  Returns
the resulting message list, the number of search-adapter invocations, and
the number of times the exception branch ran. -/
def intercept_websearch_in_request
    (adapter : List (String × Json) → Except String Json)
    (msgs : List Message) : List Message × Nat × Nat :=
  match msgs.reverse with
  | u :: a :: restRev =>
      if a.role = "assistant" ∧ u.role = "user" then
        match a.content, u.content with
        | .blocks ab, .blocks ub =>
            let r := processOuter adapter ab ub
            (restRev.reverse ++ [a, { role := u.role, content := .blocks r.1 }],
              r.2.1, r.2.2)
        | _, _ => (msgs, 0, 0)
      else (msgs, 0, 0)
  | _ => (msgs, 0, 0)

/-! ## Exa search adapter (`src/utils/exa_search.py`) -/

/-- `dict.get(k, dflt)` on a JSON object's key/value list. -/
def dictGet (d : List (String × Json)) (k : String) (dflt : Json) : Json :=
  match d.find? (fun kv => kv.1 == k) with
  | some kv => kv.2
  | none => dflt

/-- Lookup of a key in a parameter object (`none` when the key is absent). -/
def dictLookup (d : List (String × Json)) (k : String) : Option Json :=
  (d.find? (fun kv => kv.1 == k)).map (fun kv => kv.2)

/-- Key lookup on a JSON value (only objects have keys). -/
def Json.lookup : Json → String → Option Json
  | .obj kvs, k => dictLookup kvs k
  | _, _ => Option.none

namespace ExaSearchAdapter

/-- `ExaSearchAdapter._create_error_response`. -/
def createErrorResponse (errorMessage : String) : Json :=
  .obj
    [("requestId", .str "error"),
     ("resolvedSearchType", .str "error"),
     ("results", .arr []),
     ("searchType", .str "error"),
     ("context", .str ("Error: " ++ errorMessage)),
     ("costDollars", .obj
       [("total", .num 0),
        ("breakDown", .arr []),
        ("perRequestPrices", .obj []),
        ("perPagePrices", .obj [])])]

/-- `ExaSearchAdapter._map_websearch_to_exa`: builds the Exa request object
(in Python dict insertion order). -/
def mapWebsearchToExa (websearchInput : List (String × Json)) : List (String × Json) :=
  let exaParams : List (String × Json) :=
    [("query", dictGet websearchInput "query" (.str "")),
     ("type", .str "auto"),
     ("numResults", .num 10),
     ("contents", .obj
       [("text", .obj [("maxCharacters", .num 2000)]),
        ("highlights", .obj [("numSentences", .num 2)]),
        ("summary", .obj [("query", dictGet websearchInput "query" (.str ""))])])]
  let allowedDomains := dictGet websearchInput "allowed_domains" (.arr [])
  let exaParams :=
    if allowedDomains.truthy then exaParams ++ [("includeDomains", allowedDomains)]
    else exaParams
  let blockedDomains := dictGet websearchInput "blocked_domains" (.arr [])
  let exaParams :=
    if blockedDomains.truthy then exaParams ++ [("excludeDomains", blockedDomains)]
    else exaParams
  exaParams ++ [("startCrawlDate", .str "2024-01-01")]

/-- Outcome of the single HTTP POST to the Exa API: either a response with a
status code and parsed JSON body, or an exception (transport failure,
unparseable body, ...) carrying `str(e)`. -/
inductive HttpOutcome where
  | ok (status : Nat) (body : Json) : HttpOutcome
  | exn (msg : String) : HttpOutcome

/-- `ExaSearchAdapter.search`.  `apiKey` is the `EXA_API_KEY` environment
value ("" when unset); `outcome` models what the one HTTP call would yield
for the parameter object it is sent.  Returns the result envelope and the
number of network calls issued. -/
def search (apiKey : String) (websearchInput : List (String × Json))
    (outcome : List (String × Json) → HttpOutcome) : Json × Nat :=
  if apiKey = "" then (createErrorResponse "EXA_API_KEY not configured", 0)
  else
    let exaParams := mapWebsearchToExa websearchInput
    match outcome exaParams with
    | .exn msg => (createErrorResponse msg, 1)
    | .ok status body =>
        if status ≠ 200 then
          (createErrorResponse ("Exa API error: " ++ toString status), 1)
        else (body, 1)

end ExaSearchAdapter

/-! ## Client API-key validation (endpoints.py, `validate_api_key`) -/

/-- Modelled from the spec: `config.validate_client_api_key` lives in
`src/core/config.py`, which is not part of the provided sources.  Per §6
("client must supply a shared-secret credential") it compares the client's
credential against the configured server-side secret. -/
def validate_client_api_key (serverKey clientKey : String) : Bool :=
  clientKey == serverKey

/-- Python `str.startswith`. -/
def pyStartsWith (s pre : String) : Bool :=
  pre.toList.isPrefixOf s.toList

/-- Left-to-right replacement of every non-overlapping occurrence of `pat`
(non-empty here) by `repl`; the fuel argument is the input length. -/
def replaceAux (pat repl : List Char) : Nat → List Char → List Char
  | _, [] => []
  | 0, l => l
  | fuel + 1, c :: cs =>
      if pat ≠ [] ∧ pat.isPrefixOf (c :: cs) then
        repl ++ replaceAux pat repl fuel (List.drop pat.length (c :: cs))
      else c :: replaceAux pat repl fuel cs

/-- Python `str.replace` (all occurrences). -/
def pyReplace (s pat repl : String) : String :=
  String.mk (replaceAux pat.toList repl.toList s.toList.length s.toList)

/-- Credential extraction (endpoints.py lines 31-37): `x-api-key` wins when
truthy, else an `Authorization` header with a `Bearer ` prefix, from which
every occurrence of `"Bearer "` is removed (Python `str.replace`). -/
def extractClientKey (xApiKey authorization : Option String) : Option String :=
  match xApiKey with
  | some k => if k ≠ "" then some k else
      match authorization with
      | some a => if pyStartsWith a "Bearer " then some (pyReplace a "Bearer " "") else none
      | none => none
  | none =>
      match authorization with
      | some a => if pyStartsWith a "Bearer " then some (pyReplace a "Bearer " "") else none
      | none => none

/-- `validate_api_key` (endpoints.py lines 29-49): `Except.error 401` models
the raised `HTTPException(status_code=401)`. -/
def validate_api_key (serverKey : String) (xApiKey authorization : Option String) :
    Except Nat Unit :=
  let clientKey := extractClientKey xApiKey authorization
  if serverKey = "" then .ok ()
  else
    match clientKey with
    | none => .error 401
    | some k =>
        if k = "" then .error 401
        else if validate_client_api_key serverKey k then .ok ()
        else .error 401

/-! ## Token counting (endpoints.py, `count_tokens`) -/

/-- The per-block contribution inside the two inner loops: only blocks with
a `text` attribute count. -/
def blockTextChars : ContentBlock → Nat
  | .text t => t.length
  | _ => 0

/-- `count_tokens` (endpoints.py lines 199-230), translated with the same
sequential accumulation the Python code performs. -/
def count_tokens (system : Option SystemField) (msgs : List Message) : Nat :=
  let t0 : Nat :=
    match system with
    | none => 0
    | some (.str s) => s.length
    | some (.blocks bs) =>
        bs.foldl (fun acc b => match b with | .text t => acc + t.length | _ => acc) 0
  let totalChars := msgs.foldl (fun acc m =>
    match m.content with
    | .none => acc
    | .str s => acc + s.length
    | .blocks bs =>
        bs.foldl (fun acc2 b => match b with | .text t => acc2 + t.length | _ => acc2) acc) t0
  max 1 (totalChars / 4)

/-- Character contribution of the system field, as a plain sum. -/
def systemChars : Option SystemField → Nat
  | none => 0
  | some (.str s) => s.length
  | some (.blocks bs) => (bs.map blockTextChars).sum

/-- Character contribution of one message, as a plain sum. -/
def messageChars (m : Message) : Nat :=
  match m.content with
  | .none => 0
  | .str s => s.length
  | .blocks bs => (bs.map blockTextChars).sum

/-- The character count as the spec describes it: a plain sum over the
system field and the messages. -/
def specCharCount (system : Option SystemField) (msgs : List Message) : Nat :=
  systemChars system + (msgs.map messageChars).sum

/-! ## Streaming response converter (block framing)

Modelled from the spec: `convert_openai_streaming_to_claude_with_cancellation`
lives in `src/conversion/response_converter.py`, which is not part of the
provided sources.  Per §4.5: "first delta for a block emits a synthetic
'block start' event before the delta event; a block boundary (new block
index, or stream end) emits a synthetic 'block stop' event for the previous
block". -/

inductive OutEvent where
  | start (i : Nat) : OutEvent
  | delta (i : Nat) (payload : String) : OutEvent
  | stop (i : Nat) : OutEvent
deriving DecidableEq

/-- The streaming state machine: the second argument is the index of the
currently open block, if any. -/
def convertStream : List (Nat × String) → Option Nat → List OutEvent
  | [], none => []
  | [], some j => [.stop j]
  | (i, p) :: rest, none => .start i :: .delta i p :: convertStream rest (some i)
  | (i, p) :: rest, some j =>
      if i = j then .delta i p :: convertStream rest (some j)
      else .stop j :: .start i :: .delta i p :: convertStream rest (some i)

/-- Flattens a run-list representation of the upstream deltas (each run is a
block index with its payloads, blocks arriving one after the other). -/
def runsFlatten : List (Nat × List String) → List (Nat × String)
  | [] => []
  | (i, ps) :: rs => ps.map (fun p => (i, p)) ++ runsFlatten rs

/-- The full converted output for an upstream stream. -/
def streamOut (rs : List (Nat × List String)) : List OutEvent :=
  convertStream (runsFlatten rs) none

/-- The event segment a single block contributes. -/
def runEvents (i : Nat) (ps : List String) : List OutEvent :=
  .start i :: (ps.map (fun p => .delta i p) ++ [.stop i])

/-! ## Helper lemmas: token counting -/

theorem foldl_add_of_step {α : Type} (g : Nat → α → Nat) (f : α → Nat)
    (hg : ∀ a x, g a x = a + f x) :
    ∀ (l : List α) (n : Nat), l.foldl g n = n + (l.map f).sum := by
  intro l
  induction l with
  | nil => simp
  | cons x xs ih =>
      intro n
      rw [List.foldl_cons, ih, hg]
      simp [Nat.add_assoc]

theorem blocksFold_eq (bs : List ContentBlock) (n : Nat) :
    bs.foldl (fun acc b => match b with | .text t => acc + t.length | _ => acc) n =
      n + (bs.map blockTextChars).sum :=
  foldl_add_of_step _ blockTextChars (by intro a b; cases b <;> simp [blockTextChars]) bs n

theorem msgsFold_eq (msgs : List Message) (n : Nat) :
    msgs.foldl (fun acc m =>
      match m.content with
      | .none => acc
      | .str s => acc + s.length
      | .blocks bs =>
          bs.foldl (fun acc2 b => match b with | .text t => acc2 + t.length | _ => acc2) acc) n =
      n + (msgs.map messageChars).sum := by
  refine foldl_add_of_step _ messageChars ?_ msgs n
  intro a m
  rcases m with ⟨role, content⟩
  cases content <;> simp [messageChars, blocksFold_eq]

/-! ## Theorems for the token-count endpoint -/

/-- C9: For every token-count request, the returned `input_tokens` equals
`max 1 (C / 4)` where `C` sums the system-prompt characters (string form or
text blocks), string message contents and text-block contents; `None`
contents and blocks without a text attribute contribute 0.  The result is
always at least 1. -/
theorem count_tokens_spec (system : Option SystemField) (msgs : List Message) :
    count_tokens system msgs = max 1 (specCharCount system msgs / 4) ∧
      1 ≤ count_tokens system msgs := by
  have hsys : (match system with
      | none => 0
      | some (.str s) => s.length
      | some (.blocks bs) =>
          bs.foldl (fun acc b => match b with | .text t => acc + t.length | _ => acc) 0) =
      systemChars system := by
    rcases system with _ | sf
    · rfl
    · cases sf with
      | str s => rfl
      | blocks bs => simpa [systemChars] using blocksFold_eq bs 0
  constructor
  · simp only [count_tokens]
    rw [msgsFold_eq, hsys, specCharCount]
  · simp only [count_tokens]
    exact le_max_left 1 _

/-- C8: A token-count request whose system prompt is a string of length 40
and whose single user message content is a string of length 80 returns
`input_tokens = 30 = ⌊120 / 4⌋`. -/
theorem count_tokens_concrete (s m : String) (hs : s.length = 40) (hm : m.length = 80) :
    count_tokens (some (.str s)) [{ role := "user", content := .str m }] = 30 := by
  simp [count_tokens, hs, hm]

/-- Witness for `count_tokens_concrete` at concrete strings. -/
theorem count_tokens_concrete_witness :
    count_tokens (some (.str "0123456789012345678901234567890123456789"))
      [{ role := "user",
         content := .str
           "01234567890123456789012345678901234567890123456789012345678901234567890123456789" }] =
      30 :=
  count_tokens_concrete _ _ (by decide) (by decide)

/-! ## Theorems for the search adapter -/

/-- C4: The Search Adapter's `search` never raises past its boundary: with
no API credential it returns the documented error envelope immediately with
zero network calls; on a non-success HTTP status or on a transport/other
exception it returns the uniform error envelope; and the envelope indeed
carries `requestId:"error"`, an empty result list, `context:"Error: <msg>"`
and a zeroed cost. -/
theorem search_error_envelopes (apiKey : String) (input : List (String × Json))
    (outcome : List (String × Json) → ExaSearchAdapter.HttpOutcome) :
    (apiKey = "" →
      ExaSearchAdapter.search apiKey input outcome =
        (ExaSearchAdapter.createErrorResponse "EXA_API_KEY not configured", 0)) ∧
    (∀ status body, apiKey ≠ "" → status ≠ 200 →
      outcome (ExaSearchAdapter.mapWebsearchToExa input) = .ok status body →
      ExaSearchAdapter.search apiKey input outcome =
        (ExaSearchAdapter.createErrorResponse ("Exa API error: " ++ toString status), 1)) ∧
    (∀ msg, apiKey ≠ "" →
      outcome (ExaSearchAdapter.mapWebsearchToExa input) = .exn msg →
      ExaSearchAdapter.search apiKey input outcome =
        (ExaSearchAdapter.createErrorResponse msg, 1)) ∧
    (∀ msg,
      (ExaSearchAdapter.createErrorResponse msg).lookup "requestId" = some (.str "error") ∧
      (ExaSearchAdapter.createErrorResponse msg).lookup "results" = some (.arr []) ∧
      (ExaSearchAdapter.createErrorResponse msg).lookup "context" =
        some (.str ("Error: " ++ msg)) ∧
      (ExaSearchAdapter.createErrorResponse msg).lookup "costDollars" =
        some (.obj [("total", .num 0), ("breakDown", .arr []),
          ("perRequestPrices", .obj []), ("perPagePrices", .obj [])])) := by
  refine ⟨fun h => ?_, fun status body h h200 hout => ?_, fun msg h hout => ?_, fun msg => ?_⟩
  · simp [ExaSearchAdapter.search, h]
  · simp [ExaSearchAdapter.search, h, hout, h200]
  · simp [ExaSearchAdapter.search, h, hout]
  · refine ⟨rfl, rfl, rfl, rfl⟩

/-- Witness for `search_error_envelopes` at concrete inputs. -/
theorem search_error_envelopes_witness :
    ExaSearchAdapter.search "" [] (fun _ => .ok 200 .null) =
      (ExaSearchAdapter.createErrorResponse "EXA_API_KEY not configured", 0) ∧
    ExaSearchAdapter.search "k" [] (fun _ => .ok 500 .null) =
      (ExaSearchAdapter.createErrorResponse ("Exa API error: " ++ toString 500), 1) ∧
    ExaSearchAdapter.search "k" [] (fun _ => .exn "timeout") =
      (ExaSearchAdapter.createErrorResponse "timeout", 1) :=
  ⟨(search_error_envelopes "" [] (fun _ => .ok 200 .null)).1 rfl,
   (search_error_envelopes "k" [] (fun _ => .ok 500 .null)).2.1 500 .null
     (by decide) (by decide) rfl,
   (search_error_envelopes "k" [] (fun _ => .exn "timeout")).2.2.1 "timeout"
     (by decide) rfl⟩

/-- C5: Parameter mapping.  For the query
"quantum computing breakthroughs 2025" with no domain filters the produced
request object has `type:"auto"`, `numResults:10`,
`startCrawlDate:"2024-01-01"`, the query echoed, and neither
`includeDomains` nor `excludeDomains`; a supplied non-empty
`allowed_domains` / `blocked_domains` list appears as the corresponding
key. -/
theorem map_websearch_params :
    (dictLookup (ExaSearchAdapter.mapWebsearchToExa
        [("query", .str "quantum computing breakthroughs 2025")]) "query" =
        some (.str "quantum computing breakthroughs 2025") ∧
      dictLookup (ExaSearchAdapter.mapWebsearchToExa
        [("query", .str "quantum computing breakthroughs 2025")]) "type" =
        some (.str "auto") ∧
      dictLookup (ExaSearchAdapter.mapWebsearchToExa
        [("query", .str "quantum computing breakthroughs 2025")]) "numResults" =
        some (.num 10) ∧
      dictLookup (ExaSearchAdapter.mapWebsearchToExa
        [("query", .str "quantum computing breakthroughs 2025")]) "startCrawlDate" =
        some (.str "2024-01-01") ∧
      dictLookup (ExaSearchAdapter.mapWebsearchToExa
        [("query", .str "quantum computing breakthroughs 2025")]) "includeDomains" =
        Option.none ∧
      dictLookup (ExaSearchAdapter.mapWebsearchToExa
        [("query", .str "quantum computing breakthroughs 2025")]) "excludeDomains" =
        Option.none) ∧
    (∀ input l, l ≠ [] → dictGet input "allowed_domains" (.arr []) = .arr l →
      dictLookup (ExaSearchAdapter.mapWebsearchToExa input) "includeDomains" =
        some (.arr l)) ∧
    (∀ input l, l ≠ [] → dictGet input "blocked_domains" (.arr []) = .arr l →
      dictLookup (ExaSearchAdapter.mapWebsearchToExa input) "excludeDomains" =
        some (.arr l)) := by
  refine ⟨⟨rfl, rfl, rfl, rfl, rfl, rfl⟩, fun input l hl hget => ?_, fun input l hl hget => ?_⟩
  · have htr : (Json.arr l).truthy = true := by
      simp [Json.truthy, List.isEmpty_iff, hl]
    simp only [ExaSearchAdapter.mapWebsearchToExa, hget, htr, if_true]
    rcases htr2 : (dictGet input "blocked_domains" (.arr [])).truthy <;>
      simp [dictLookup, List.find?]
  · have htr : (Json.arr l).truthy = true := by
      simp [Json.truthy, List.isEmpty_iff, hl]
    simp only [ExaSearchAdapter.mapWebsearchToExa, hget, htr, if_true]
    rcases htr2 : (dictGet input "allowed_domains" (.arr [])).truthy <;>
      simp [dictLookup, List.find?]

/-- Witness for `map_websearch_params`: a request with non-empty domain
lists produces both keys. -/
theorem map_websearch_params_witness :
    dictLookup (ExaSearchAdapter.mapWebsearchToExa
        [("query", .str "q"), ("allowed_domains", .arr [.str "a.com"]),
         ("blocked_domains", .arr [.str "b.com"])]) "includeDomains" =
      some (.arr [.str "a.com"]) ∧
    dictLookup (ExaSearchAdapter.mapWebsearchToExa
        [("query", .str "q"), ("allowed_domains", .arr [.str "a.com"]),
         ("blocked_domains", .arr [.str "b.com"])]) "excludeDomains" =
      some (.arr [.str "b.com"]) :=
  ⟨(map_websearch_params).2.1 _ [.str "a.com"] (by simp) rfl,
   (map_websearch_params).2.2 _ [.str "b.com"] (by simp) rfl⟩

/-! ## Theorem for client-key validation -/

/-- C7: When no server-side secret is configured, validation is skipped and
every request passes; when a secret is configured, a missing or invalid
credential (extracted from `x-api-key` or from a `Bearer` Authorization
header) is rejected with 401, and the valid credential passes. -/
theorem validate_api_key_spec (serverKey : String) (xApiKey authorization : Option String) :
    (serverKey = "" → validate_api_key serverKey xApiKey authorization = .ok ()) ∧
    (serverKey ≠ "" →
      (extractClientKey xApiKey authorization = Option.none →
        validate_api_key serverKey xApiKey authorization = .error 401) ∧
      (∀ k, extractClientKey xApiKey authorization = some k → k ≠ serverKey →
        validate_api_key serverKey xApiKey authorization = .error 401) ∧
      (extractClientKey xApiKey authorization = some serverKey →
        validate_api_key serverKey xApiKey authorization = .ok ())) := by
  refine ⟨fun h => ?_, fun h => ⟨fun hnone => ?_, fun k hk hne => ?_, fun hval => ?_⟩⟩
  · simp [validate_api_key, h]
  · simp [validate_api_key, h, hnone]
  · rcases eq_or_ne k "" with rfl | hke
    · simp [validate_api_key, h, hk]
    · simp [validate_api_key, h, hk, hke, validate_client_api_key, hne]
  · have hne : serverKey ≠ "" := h
    simp [validate_api_key, h, hval, hne, validate_client_api_key]

/-- Witness for `validate_api_key_spec`: the skip case, a rejected bad key
supplied through a Bearer header, and an accepted key through `x-api-key`. -/
theorem validate_api_key_spec_witness :
    validate_api_key "" Option.none Option.none = .ok () ∧
    validate_api_key "secret" Option.none (some "Bearer wrong") = .error 401 ∧
    validate_api_key "secret" (some "secret") Option.none = .ok () :=
  ⟨(validate_api_key_spec "" Option.none Option.none).1 rfl,
   ((validate_api_key_spec "secret" Option.none (some "Bearer wrong")).2 (by decide)).2.1
     "wrong" (by decide) (by decide),
   ((validate_api_key_spec "secret" (some "secret") Option.none).2 (by decide)).2.2
     (by decide)⟩

/-! ## Helper lemmas: the interceptor -/

/-- The per-block effect of one pass of the outer loop. -/
def applyOuter (adapter : List (String × Json) → Except String Json)
    (ab : List ContentBlock) (b : ContentBlock) : ContentBlock :=
  ab.foldl (fun c tu =>
    match tu with
    | .toolUse id name input =>
        if name = "WebSearch" then (processBlock adapter id input c).1 else c
    | _ => c) b

theorem processInner_fst (adapter : List (String × Json) → Except String Json)
    (tuId : String) (input : List (String × Json)) (ub : List ContentBlock) :
    (processInner adapter tuId input ub).1 =
      ub.map (fun b => (processBlock adapter tuId input b).1) := by
  induction ub with
  | nil => rfl
  | cons b bs ih => simp [processInner, ih]

theorem processOuter_fst (adapter : List (String × Json) → Except String Json)
    (ab ub : List ContentBlock) :
    (processOuter adapter ab ub).1 = ub.map (applyOuter adapter ab) := by
  induction ab generalizing ub with
  | nil =>
      have hid : applyOuter adapter [] = fun b => b := by
        funext b; rfl
      simp [processOuter, hid]
  | cons ab0 abs ih =>
      cases ab0 with
      | toolUse id name input =>
          by_cases hname : name = "WebSearch"
          · simp only [processOuter, hname, if_true, ih, processInner_fst, List.map_map]
            subst hname
            simp [applyOuter, Function.comp]
          · simp [processOuter, hname, ih, applyOuter]
      | text t => simp [processOuter, ih, applyOuter]
      | toolResult tid c => simp [processOuter, ih, applyOuter]
      | other k p => simp [processOuter, ih, applyOuter]

/-- A non-triggering pair leaves the user block untouched and performs no call. -/
theorem processBlock_noop (adapter : List (String × Json) → Except String Json)
    (id : String) (input : List (String × Json)) (b : ContentBlock)
    (h : pairTriggers (.toolUse id "WebSearch" input) b = false) :
    processBlock adapter id input b = (b, 0, 0) := by
  cases b with
  | toolResult tid c =>
      cases c with
      | str s =>
          simp only [pairTriggers, Bool.and_eq_false_iff, beq_iff_eq] at h
          by_cases htid : tid = id
          · rcases h with h | h
            · rcases h with h | h
              · simp at h
              · simp [htid] at h
            · simp [processBlock, htid, h]
          · simp [processBlock, htid]
      | null => by_cases htid : tid = id <;> simp [processBlock, htid]
      | bool b => by_cases htid : tid = id <;> simp [processBlock, htid]
      | num n => by_cases htid : tid = id <;> simp [processBlock, htid]
      | arr xs => by_cases htid : tid = id <;> simp [processBlock, htid]
      | obj kvs => by_cases htid : tid = id <;> simp [processBlock, htid]
  | text t => rfl
  | toolUse i n inp => rfl
  | other k p => rfl

theorem processInner_noop (adapter : List (String × Json) → Except String Json)
    (id : String) (input : List (String × Json)) (ub : List ContentBlock)
    (h : ∀ b ∈ ub, pairTriggers (.toolUse id "WebSearch" input) b = false) :
    processInner adapter id input ub = (ub, 0, 0) := by
  induction ub with
  | nil => rfl
  | cons b bs ih =>
      have hb := processBlock_noop adapter id input b (h b (List.mem_cons_self b bs))
      have hbs := ih (fun x hx => h x (List.mem_cons_of_mem b hx))
      simp [processInner, hb, hbs]

theorem processOuter_noop (adapter : List (String × Json) → Except String Json)
    (ab ub : List ContentBlock)
    (h : ∀ tu ∈ ab, ∀ b ∈ ub, pairTriggers tu b = false) :
    processOuter adapter ab ub = (ub, 0, 0) := by
  induction ab with
  | nil => rfl
  | cons ab0 abs ih =>
      have habs : ∀ tu ∈ abs, ∀ b ∈ ub, pairTriggers tu b = false :=
        fun tu htu => h tu (List.mem_cons_of_mem ab0 htu)
      cases ab0 with
      | toolUse id name input =>
          by_cases hname : name = "WebSearch"
          · subst hname
            have hinner := processInner_noop adapter id input ub
              (h _ (List.mem_cons_self _ abs))
            simp [processOuter, hinner, ih habs]
          · simp [processOuter, hname, ih habs]
      | text t => simp [processOuter, ih habs]
      | toolResult tid c => simp [processOuter, ih habs]
      | other k p => simp [processOuter, ih habs]

/-- Reconstruction of a list from its reversed form. -/
theorem eq_of_reverse_eq (msgs : List Message) (u a : Message) (rest : List Message)
    (h : msgs.reverse = u :: a :: rest) : msgs = rest.reverse ++ [a, u] := by
  have h2 := congrArg List.reverse h
  rw [List.reverse_reverse] at h2
  simpa using h2

/-! ## Theorems for the interceptor: the no-op case -/

/-- C1: When the §4.1 trigger condition does not hold (too few messages,
wrong roles, non-block content, no matching correlation id, or content not
a placeholder), the interceptor returns the conversation unchanged and
performs no search call. -/
theorem intercept_noop (adapter : List (String × Json) → Except String Json)
    (msgs : List Message) (h : triggerCondition msgs = false) :
    intercept_websearch_in_request adapter msgs = (msgs, 0, 0) := by
  rcases hrev : msgs.reverse with _ | ⟨u, rest1⟩
  · simp [intercept_websearch_in_request, hrev]
  rcases rest1 with _ | ⟨a, rest⟩
  · simp [intercept_websearch_in_request, hrev]
  have hmsgs := eq_of_reverse_eq msgs u a rest hrev
  rcases a with ⟨ar, ac⟩
  rcases u with ⟨ur, uc⟩
  by_cases hroles : ar = "assistant" ∧ ur = "user"
  · obtain ⟨rfl, rfl⟩ := hroles
    cases ac with
    | blocks ab =>
        cases uc with
        | blocks ub =>
            simp only [triggerCondition, hrev, beq_self_eq_true, Bool.true_and] at h
            have hpairs : ∀ tu ∈ ab, ∀ b ∈ ub, pairTriggers tu b = false := by
              intro tu htu b hb
              rcases hx : pairTriggers tu b
              · rfl
              · exfalso
                have hany : (ab.any fun tu => ub.any fun tr => pairTriggers tu tr) = true :=
                  List.any_eq_true.mpr ⟨tu, htu, List.any_eq_true.mpr ⟨b, hb, hx⟩⟩
                rw [hany] at h
                exact absurd h (by decide)
            simp only [intercept_websearch_in_request, hrev]
            rw [if_pos (⟨trivial, trivial⟩ : True ∧ True),
              processOuter_noop adapter ab ub hpairs, hmsgs]
        | none => simp [intercept_websearch_in_request, hrev]
        | str s => simp [intercept_websearch_in_request, hrev]
    | none => cases uc <;> simp [intercept_websearch_in_request, hrev]
    | str s => cases uc <;> simp [intercept_websearch_in_request, hrev]
  · simp [intercept_websearch_in_request, hrev, hroles]

/-- Witness for `intercept_noop`: the conversation from the repository's
test script (`test_websearch.py`), whose tool_result content
"Pending search results..." matches none of the placeholder markers. -/
theorem intercept_noop_witness :
    triggerCondition
      [{ role := "user", content := .str "What are the latest developments?" },
       { role := "assistant", content := .blocks
          [.text "I will search for the latest developments.",
           .toolUse "test_tool_123" "WebSearch"
             [("query", .str "quantum computing breakthroughs 2025 latest developments")]] },
       { role := "user", content := .blocks
          [.toolResult "test_tool_123" (.str "Pending search results...")] }] = false ∧
    intercept_websearch_in_request (fun _ => Except.ok Json.null)
      [{ role := "user", content := .str "What are the latest developments?" },
       { role := "assistant", content := .blocks
          [.text "I will search for the latest developments.",
           .toolUse "test_tool_123" "WebSearch"
             [("query", .str "quantum computing breakthroughs 2025 latest developments")]] },
       { role := "user", content := .blocks
          [.toolResult "test_tool_123" (.str "Pending search results...")] }] =
      ([{ role := "user", content := .str "What are the latest developments?" },
        { role := "assistant", content := .blocks
           [.text "I will search for the latest developments.",
            .toolUse "test_tool_123" "WebSearch"
              [("query", .str "quantum computing breakthroughs 2025 latest developments")]] },
        { role := "user", content := .blocks
           [.toolResult "test_tool_123" (.str "Pending search results...")] }], 0, 0) :=
  ⟨rfl, intercept_noop _ _ rfl⟩

/-! ## Theorems for the interceptor: the triggered case -/

/-- The step function of the outer loop, acting on one user block. -/
def outerStep (adapter : List (String × Json) → Except String Json)
    (c : ContentBlock) (tu : ContentBlock) : ContentBlock :=
  match tu with
  | .toolUse id name input =>
      if name = "WebSearch" then (processBlock adapter id input c).1 else c
  | _ => c

theorem applyOuter_eq_foldl (adapter : List (String × Json) → Except String Json)
    (ab : List ContentBlock) (b : ContentBlock) :
    applyOuter adapter ab b = ab.foldl (outerStep adapter) b := by
  unfold applyOuter outerStep
  rfl

theorem applyOuter_cons (adapter : List (String × Json) → Except String Json)
    (t : ContentBlock) (ab : List ContentBlock) (b : ContentBlock) :
    applyOuter adapter (t :: ab) b = applyOuter adapter ab (outerStep adapter b t) := by
  rw [applyOuter_eq_foldl, applyOuter_eq_foldl, List.foldl_cons]

/-- A processed user block is either untouched or was a matched placeholder
tool_result replaced (keeping its correlation id) by serialized JSON. -/
theorem processBlock_cases (adapter : List (String × Json) → Except String Json)
    (id : String) (input : List (String × Json)) (b : ContentBlock) :
    (processBlock adapter id input b).1 = b ∨
      ∃ tid s x, b = .toolResult tid (.str s) ∧ isPlaceholder s = true ∧ tid = id ∧
        (processBlock adapter id input b).1 = .toolResult tid (.str (Json.dumps x)) := by
  cases b with
  | toolResult tid c =>
      by_cases htid : tid = id
      · cases c with
        | str s =>
            by_cases hp : isPlaceholder s = true
            · rcases hres : adapter input with e | res
              · right
                exact ⟨tid, s, .obj [("error", .str ("Search failed: " ++ e)),
                  ("results", .arr [])], rfl, hp, htid,
                  by simp [processBlock, htid, hp, hres]⟩
              · right
                exact ⟨tid, s, res, rfl, hp, htid, by simp [processBlock, htid, hp, hres]⟩
            · left; simp [processBlock, htid, hp]
        | null => left; simp [processBlock, htid]
        | bool bb => left; simp [processBlock, htid]
        | num n => left; simp [processBlock, htid]
        | arr xs => left; simp [processBlock, htid]
        | obj kvs => left; simp [processBlock, htid]
      · left; simp [processBlock, htid]
  | text t => left; rfl
  | toolUse i n inp => left; rfl
  | other k p => left; rfl

/-- One outer step either leaves a user block alone or replaces a matched
placeholder tool_result by serialized JSON. -/
theorem outerStep_cases (adapter : List (String × Json) → Except String Json)
    (b tu : ContentBlock) :
    outerStep adapter b tu = b ∨
      ∃ tid s x, b = .toolResult tid (.str s) ∧ isPlaceholder s = true ∧
        (∃ input, tu = .toolUse tid "WebSearch" input) ∧
        outerStep adapter b tu = .toolResult tid (.str (Json.dumps x)) := by
  cases tu with
  | toolUse id name input =>
      by_cases hname : name = "WebSearch"
      · subst hname
        rcases processBlock_cases adapter id input b with hpb | ⟨tid, s, x, hb, hp, htid, hpb⟩
        · left; simp [outerStep, hpb]
        · right
          subst htid
          exact ⟨tid, s, x, hb, hp, ⟨input, rfl⟩, by simp [outerStep, hpb]⟩
      · left; simp [outerStep, hname]
  | text t => left; rfl
  | toolResult tid c => left; rfl
  | other k p => left; rfl

/-- Serialized-JSON tool_results stay serialized-JSON tool_results with the
same correlation id through the rest of the outer loop. -/
theorem applyOuter_dumps (adapter : List (String × Json) → Except String Json)
    (ab : List ContentBlock) :
    ∀ tid x, ∃ y,
      applyOuter adapter ab (.toolResult tid (.str (Json.dumps x))) =
        .toolResult tid (.str (Json.dumps y)) := by
  induction ab with
  | nil => intro tid x; exact ⟨x, rfl⟩
  | cons t ab ih =>
      intro tid x
      rw [applyOuter_cons]
      rcases outerStep_cases adapter (.toolResult tid (.str (Json.dumps x))) t with
        hstep | ⟨tid2, s2, x2, hb, hp, _, hstep⟩
      · rw [hstep]; exact ih tid x
      · injection hb with h1 h2
        subst h1
        rw [hstep]
        exact ih tid x2

/-- The frame relation between an original user block and its final form:
unchanged, or a matched placeholder tool_result whose content was replaced
(same id) by serialized JSON. -/
def blockOk (ab : List ContentBlock) (b bNew : ContentBlock) : Prop :=
  bNew = b ∨
    ∃ tid s input x, b = .toolResult tid (.str s) ∧ isPlaceholder s = true ∧
      ContentBlock.toolUse tid "WebSearch" input ∈ ab ∧
      bNew = .toolResult tid (.str (Json.dumps x))

theorem blockOk_mono (t : ContentBlock) (ab : List ContentBlock) (b r : ContentBlock)
    (h : blockOk ab b r) : blockOk (t :: ab) b r := by
  rcases h with h | ⟨tid, s, input, x, hb, hp, hmem, hnew⟩
  · exact Or.inl h
  · exact Or.inr ⟨tid, s, input, x, hb, hp, List.mem_cons_of_mem t hmem, hnew⟩

theorem applyOuter_blockOk (adapter : List (String × Json) → Except String Json) :
    ∀ (ab : List ContentBlock) (b : ContentBlock), blockOk ab b (applyOuter adapter ab b) := by
  intro ab
  induction ab with
  | nil => intro b; exact Or.inl rfl
  | cons t ab ih =>
      intro b
      rw [applyOuter_cons]
      rcases outerStep_cases adapter b t with hstep | ⟨tid, s, x, hb, hp, ⟨input, htu⟩, hstep⟩
      · rw [hstep]; exact blockOk_mono t ab b _ (ih b)
      · rw [hstep]
        rcases ih (.toolResult tid (.str (Json.dumps x))) with h2 |
          ⟨tid2, s2, input2, x2, hb2, hp2, hmem2, hnew2⟩
        · refine Or.inr ⟨tid, s, input, x, hb, hp, ?_, h2⟩
          rw [htu]; exact List.mem_cons_self _ _
        · injection hb2 with h3 h4
          subst h3
          refine Or.inr ⟨tid, s, input, x2, hb, hp, ?_, hnew2⟩
          rw [htu]; exact List.mem_cons_self _ _

/-- A placeholder tool_result matched by some WebSearch tool_use in the
assistant turn ends up holding serialized JSON (same correlation id). -/
theorem applyOuter_matched (adapter : List (String × Json) → Except String Json) :
    ∀ (ab : List ContentBlock) (tid s : String) (input : List (String × Json)),
      ContentBlock.toolUse tid "WebSearch" input ∈ ab → isPlaceholder s = true →
      ∃ x, applyOuter adapter ab (.toolResult tid (.str s)) =
        .toolResult tid (.str (Json.dumps x)) := by
  intro ab
  induction ab with
  | nil => intro tid s input hmem hp; exact absurd hmem (List.not_mem_nil _)
  | cons t ab ih =>
      intro tid s input hmem hp
      rw [applyOuter_cons]
      rcases List.mem_cons.mp hmem with heq | hmem2
      · rcases hres : adapter input with e | res
        · have hstep : outerStep adapter (.toolResult tid (.str s)) t =
              .toolResult tid (.str (Json.dumps (.obj
                [("error", .str ("Search failed: " ++ e)), ("results", .arr [])]))) := by
            rw [← heq]; simp [outerStep, processBlock, hp, hres]
          rw [hstep]
          exact applyOuter_dumps adapter ab tid _
        · have hstep : outerStep adapter (.toolResult tid (.str s)) t =
              .toolResult tid (.str (Json.dumps res)) := by
            rw [← heq]; simp [outerStep, processBlock, hp, hres]
          rw [hstep]
          exact applyOuter_dumps adapter ab tid res
      · rcases outerStep_cases adapter (.toolResult tid (.str s)) t with
          hstep | ⟨tid2, s2, x2, hb, hp2, _, hstep⟩
        · rw [hstep]; exact ih tid s input hmem2 hp
        · injection hb with h1 h2
          subst h1
          rw [hstep]
          exact applyOuter_dumps adapter ab tid x2

theorem forall₂_map_of_forall {α β : Type} (R : α → β → Prop) (f : α → β) :
    ∀ l : List α, (∀ x ∈ l, R x (f x)) → List.Forall₂ R l (l.map f) := by
  intro l
  induction l with
  | nil => intro h; exact List.Forall₂.nil
  | cons x xs ih =>
      intro h
      exact List.Forall₂.cons (h x (List.mem_cons_self x xs))
        (ih fun y hy => h y (List.mem_cons_of_mem x hy))

/-- Destructuring a triggering pair. -/
theorem pairTriggers_shape (tu tr : ContentBlock) (h : pairTriggers tu tr = true) :
    ∃ id input s, tu = .toolUse id "WebSearch" input ∧
      tr = .toolResult id (.str s) ∧ isPlaceholder s = true := by
  cases tu with
  | toolUse id name input =>
      cases tr with
      | toolResult tid c =>
          cases c with
          | str s =>
              simp only [pairTriggers, Bool.and_eq_true, beq_iff_eq] at h
              obtain ⟨⟨hname, htid⟩, hp⟩ := h
              subst hname; subst htid
              exact ⟨tid, input, s, rfl, rfl, hp⟩
          | null => exact absurd h (by simp [pairTriggers])
          | bool bb => exact absurd h (by simp [pairTriggers])
          | num n => exact absurd h (by simp [pairTriggers])
          | arr xs => exact absurd h (by simp [pairTriggers])
          | obj kvs => exact absurd h (by simp [pairTriggers])
      | text t => exact absurd h (by simp [pairTriggers])
      | toolUse i2 n2 inp2 => exact absurd h (by simp [pairTriggers])
      | other k p => exact absurd h (by simp [pairTriggers])
  | text t => exact absurd h (by simp [pairTriggers])
  | toolResult tid c => exact absurd h (by simp [pairTriggers])
  | other k p => exact absurd h (by simp [pairTriggers])

/-- C2: When the §4.1 trigger condition holds, the interceptor leaves every
turn except the last user turn untouched (the assistant turn and all earlier
turns are returned as they were, and the user turn keeps its role), every
user block is either unchanged or a matched placeholder tool_result whose
content (only) was replaced by serialized JSON with its correlation id kept,
and the matched tool_result now holds a string that is serialized JSON. -/
theorem intercept_triggered (adapter : List (String × Json) → Except String Json)
    (front : List Message) (a u : Message) (ab ub : List ContentBlock)
    (ha : a.role = "assistant") (hu : u.role = "user")
    (hac : a.content = .blocks ab) (huc : u.content = .blocks ub)
    (htrig : ∃ tu ∈ ab, ∃ tr ∈ ub, pairTriggers tu tr = true) :
    ∃ ub',
      (intercept_websearch_in_request adapter (front ++ [a, u])).1 =
        front ++ [a, { role := u.role, content := .blocks ub' }] ∧
      List.Forall₂ (blockOk ab) ub ub' ∧
      ∃ j tid s x, ub.get? j = some (.toolResult tid (.str s)) ∧
        isPlaceholder s = true ∧
        ub'.get? j = some (.toolResult tid (.str (Json.dumps x))) := by
  have hrev : (front ++ [a, u]).reverse = u :: a :: front.reverse := by simp
  refine ⟨(processOuter adapter ab ub).1, ?_, ?_, ?_⟩
  · simp only [intercept_websearch_in_request, hrev, hac, huc, if_pos (And.intro ha hu)]
    simp
  · rw [processOuter_fst]
    exact forall₂_map_of_forall _ _ ub (fun b _ => applyOuter_blockOk adapter ab b)
  · obtain ⟨tu, htu, tr, htr, hpair⟩ := htrig
    obtain ⟨id, input, s, htu_eq, htr_eq, hp⟩ := pairTriggers_shape tu tr hpair
    obtain ⟨j, hj⟩ := List.mem_iff_get?.mp htr
    obtain ⟨x, hx⟩ := applyOuter_matched adapter ab id s input (htu_eq ▸ htu) hp
    refine ⟨j, id, s, x, ?_, hp, ?_⟩
    · rw [hj, htr_eq]
    · rw [processOuter_fst, List.get?_map, hj, htr_eq]
      simp [hx]

/-- Witness for `intercept_triggered`: one WebSearch tool_use matched by one
placeholder tool_result. -/
theorem intercept_triggered_witness :
    ∃ ub',
      (intercept_websearch_in_request (fun _ => Except.ok Json.null)
        [{ role := "assistant", content := .blocks [.toolUse "t1" "WebSearch" []] },
         { role := "user",
           content := .blocks [.toolResult "t1" (.str "Web search results")] }]).1 =
        [{ role := "assistant", content := .blocks [.toolUse "t1" "WebSearch" []] },
         { role := "user", content := .blocks ub' }] ∧
      List.Forall₂ (blockOk [.toolUse "t1" "WebSearch" []])
        [.toolResult "t1" (.str "Web search results")] ub' ∧
      ∃ j tid s x,
        [ContentBlock.toolResult "t1" (.str "Web search results")].get? j =
          some (.toolResult tid (.str s)) ∧
        isPlaceholder s = true ∧
        ub'.get? j = some (.toolResult tid (.str (Json.dumps x))) :=
  intercept_triggered (fun _ => Except.ok Json.null) [] _ _ _ _ rfl rfl rfl rfl
    ⟨.toolUse "t1" "WebSearch" [], by simp,
     .toolResult "t1" (.str "Web search results"), by simp, rfl⟩

/-! ## Theorems for the interceptor: number of search calls -/

/-- Counterexample to C3 as stated: a last assistant turn with two WebSearch
tool_use blocks, each matched by a placeholder tool_result, makes the
interceptor perform two search calls in one invocation. -/
theorem intercept_two_searches :
    ¬ ((intercept_websearch_in_request (fun _ => Except.ok Json.null)
      [{ role := "assistant", content := .blocks
          [.toolUse "t1" "WebSearch" [], .toolUse "t2" "WebSearch" []] },
       { role := "user", content := .blocks
          [.toolResult "t1" (.str "Web search results"),
           .toolResult "t2" (.str "Web search results")] }]).2.1 ≤ 1) := by
  decide

def isWebSearchUse : ContentBlock → Bool
  | .toolUse _ name _ => name == "WebSearch"
  | _ => false

def isToolResultBlock : ContentBlock → Bool
  | .toolResult _ _ => true
  | _ => false

theorem processBlock_searchCount (adapter : List (String × Json) → Except String Json)
    (id : String) (input : List (String × Json)) (b : ContentBlock) :
    (processBlock adapter id input b).2.1 ≤ (if isToolResultBlock b then 1 else 0) := by
  cases b with
  | toolResult tid c =>
      by_cases htid : tid = id
      · cases c with
        | str s =>
            by_cases hp : isPlaceholder s = true
            · rcases hres : adapter input with e | res <;>
                simp [processBlock, htid, hp, hres, isToolResultBlock]
            · simp [processBlock, htid, hp, isToolResultBlock]
        | null => simp [processBlock, htid, isToolResultBlock]
        | bool bb => simp [processBlock, htid, isToolResultBlock]
        | num n => simp [processBlock, htid, isToolResultBlock]
        | arr xs => simp [processBlock, htid, isToolResultBlock]
        | obj kvs => simp [processBlock, htid, isToolResultBlock]
      · simp [processBlock, htid, isToolResultBlock]
  | text t => simp [processBlock, isToolResultBlock]
  | toolUse i n inp => simp [processBlock, isToolResultBlock]
  | other k p => simp [processBlock, isToolResultBlock]

theorem processBlock_preserves_isTR (adapter : List (String × Json) → Except String Json)
    (id : String) (input : List (String × Json)) (b : ContentBlock) :
    isToolResultBlock (processBlock adapter id input b).1 = isToolResultBlock b := by
  rcases processBlock_cases adapter id input b with h | ⟨tid, s, x, hb, hp, htid, h⟩
  · rw [h]
  · rw [h, hb]; rfl

theorem countP_map_eq {α : Type} (p : α → Bool) (f : α → α)
    (h : ∀ x, p (f x) = p x) (l : List α) : (l.map f).countP p = l.countP p := by
  induction l with
  | nil => rfl
  | cons x xs ih => simp [List.countP_cons, h, ih]

theorem processInner_searchCount_le (adapter : List (String × Json) → Except String Json)
    (id : String) (input : List (String × Json)) (ub : List ContentBlock) :
    (processInner adapter id input ub).2.1 ≤ ub.countP isToolResultBlock := by
  induction ub with
  | nil => simp [processInner]
  | cons b bs ih =>
      have hb := processBlock_searchCount adapter id input b
      rcases hp : isToolResultBlock b <;> rw [hp] at hb <;>
        simp only [processInner, List.countP_cons, hp] <;> simp at hb ⊢ <;> omega

theorem noWS_searchCount_zero (adapter : List (String × Json) → Except String Json)
    (ab : List ContentBlock) :
    ∀ ub, ab.countP isWebSearchUse = 0 → (processOuter adapter ab ub).2.1 = 0 := by
  induction ab with
  | nil => intro ub h; rfl
  | cons ab0 abs ih =>
      intro ub h
      rw [List.countP_cons] at h
      have hfalse : isWebSearchUse ab0 = false := by
        rcases hcase : isWebSearchUse ab0
        · rfl
        · rw [hcase] at h; simp at h
      have habs : abs.countP isWebSearchUse = 0 := by
        rw [hfalse] at h
        simpa using h
      cases ab0 with
      | toolUse id name input =>
          have hname : name ≠ "WebSearch" := by
            intro hcon
            rw [hcon] at hfalse
            simp [isWebSearchUse] at hfalse
          simp [processOuter, hname, ih _ habs]
      | text t => simp [processOuter, ih _ habs]
      | toolResult tid c => simp [processOuter, ih _ habs]
      | other k p => simp [processOuter, ih _ habs]

theorem processOuter_searchCount_le (adapter : List (String × Json) → Except String Json)
    (ab : List ContentBlock) :
    ∀ ub, ab.countP isWebSearchUse ≤ 1 →
      (processOuter adapter ab ub).2.1 ≤ ub.countP isToolResultBlock := by
  induction ab with
  | nil => intro ub _; simp [processOuter]
  | cons ab0 abs ih =>
      intro ub hws
      rw [List.countP_cons] at hws
      cases ab0 with
      | toolUse id name input =>
          by_cases hname : name = "WebSearch"
          · subst hname
            have hone : isWebSearchUse (ContentBlock.toolUse id "WebSearch" input) = true := by
              simp [isWebSearchUse]
            have habs : abs.countP isWebSearchUse = 0 := by
              rw [hone] at hws
              simp only [eq_self_iff_true, if_true] at hws
              omega
            have h1 := processInner_searchCount_le adapter id input ub
            have h2 := noWS_searchCount_zero adapter abs
              (processInner adapter id input ub).1 habs
            simp only [processOuter, if_true]
            omega
          · have habs : abs.countP isWebSearchUse ≤ 1 := by omega
            simp only [processOuter, if_neg hname]
            exact ih ub habs
      | text t =>
          have habs : abs.countP isWebSearchUse ≤ 1 := by omega
          simp only [processOuter]
          exact ih ub habs
      | toolResult tid c =>
          have habs : abs.countP isWebSearchUse ≤ 1 := by omega
          simp only [processOuter]
          exact ih ub habs
      | other k p =>
          have habs : abs.countP isWebSearchUse ≤ 1 := by omega
          simp only [processOuter]
          exact ih ub habs

/-- C3 amended: the interceptor performs one search call per matched
(WebSearch tool_use, placeholder tool_result) pair, so with at most one
WebSearch tool_use in the last assistant turn and at most one tool_result
in the last user turn it performs at most one search call; with several
such blocks it performs one call per pair (see the counterexample), and no
call is ever retried beyond that. -/
theorem intercept_at_most_one_search (adapter : List (String × Json) → Except String Json)
    (front : List Message) (a u : Message) (ab ub : List ContentBlock)
    (hac : a.content = .blocks ab) (huc : u.content = .blocks ub)
    (hws : ab.countP isWebSearchUse ≤ 1) (htr : ub.countP isToolResultBlock ≤ 1) :
    (intercept_websearch_in_request adapter (front ++ [a, u])).2.1 ≤ 1 := by
  have hrev : (front ++ [a, u]).reverse = u :: a :: front.reverse := by simp
  by_cases hroles : a.role = "assistant" ∧ u.role = "user"
  · simp only [intercept_websearch_in_request, hrev, hac, huc, if_pos hroles]
    have h1 := processOuter_searchCount_le adapter ab ub hws
    omega
  · simp [intercept_websearch_in_request, hrev, hroles]

/-- Witness for `intercept_at_most_one_search`: a single matched pair. -/
theorem intercept_at_most_one_search_witness :
    (intercept_websearch_in_request (fun _ => Except.ok Json.null)
      [{ role := "assistant", content := .blocks [.toolUse "t1" "WebSearch" []] },
       { role := "user",
         content := .blocks [.toolResult "t1" (.str "Web search results")] }]).2.1 ≤ 1 :=
  intercept_at_most_one_search (fun _ => Except.ok Json.null) [] _ _ _ _ rfl rfl
    (by decide) (by decide)

/-! ## Theorems for the interceptor: the exception branch -/

/-- `process_websearch_via_exa` (exa_search.py lines 115-121): the module
entry point the interceptor awaits.  `ExaSearchAdapter.search` is total
(its body is one guard plus a try/except that returns an envelope on every
path), so the call returns normally — modelled by always producing
`Except.ok`. -/
def process_websearch_via_exa (apiKey : String)
    (outcome : List (String × Json) → ExaSearchAdapter.HttpOutcome)
    (toolInput : List (String × Json)) : Except String Json :=
  Except.ok (ExaSearchAdapter.search apiKey toolInput outcome).1

theorem processBlock_except_zero (adapter : List (String × Json) → Except String Json)
    (hok : ∀ inp, ∃ j, adapter inp = Except.ok j)
    (id : String) (input : List (String × Json)) (b : ContentBlock) :
    (processBlock adapter id input b).2.2 = 0 := by
  cases b with
  | toolResult tid c =>
      by_cases htid : tid = id
      · cases c with
        | str s =>
            by_cases hp : isPlaceholder s = true
            · obtain ⟨j, hj⟩ := hok input
              simp [processBlock, htid, hp, hj]
            · simp [processBlock, htid, hp]
        | null => simp [processBlock, htid]
        | bool bb => simp [processBlock, htid]
        | num n => simp [processBlock, htid]
        | arr xs => simp [processBlock, htid]
        | obj kvs => simp [processBlock, htid]
      · simp [processBlock, htid]
  | text t => rfl
  | toolUse i n inp => rfl
  | other k p => rfl

theorem processInner_except_zero (adapter : List (String × Json) → Except String Json)
    (hok : ∀ inp, ∃ j, adapter inp = Except.ok j)
    (id : String) (input : List (String × Json)) (ub : List ContentBlock) :
    (processInner adapter id input ub).2.2 = 0 := by
  induction ub with
  | nil => rfl
  | cons b bs ih =>
      simp [processInner, processBlock_except_zero adapter hok, ih]

theorem processOuter_except_zero (adapter : List (String × Json) → Except String Json)
    (hok : ∀ inp, ∃ j, adapter inp = Except.ok j) (ab : List ContentBlock) :
    ∀ ub, (processOuter adapter ab ub).2.2 = 0 := by
  induction ab with
  | nil => intro ub; rfl
  | cons ab0 abs ih =>
      intro ub
      cases ab0 with
      | toolUse id name input =>
          by_cases hname : name = "WebSearch"
          · subst hname
            simp [processOuter, processInner_except_zero adapter hok, ih]
          · simp [processOuter, hname, ih]
      | text t => simp [processOuter, ih]
      | toolResult tid c => simp [processOuter, ih]
      | other k p => simp [processOuter, ih]

theorem intercept_except_zero_of_ok (adapter : List (String × Json) → Except String Json)
    (hok : ∀ inp, ∃ j, adapter inp = Except.ok j) (msgs : List Message) :
    (intercept_websearch_in_request adapter msgs).2.2 = 0 := by
  rcases hrev : msgs.reverse with _ | ⟨u, rest1⟩
  · simp [intercept_websearch_in_request, hrev]
  rcases rest1 with _ | ⟨a, rest⟩
  · simp [intercept_websearch_in_request, hrev]
  by_cases hroles : a.role = "assistant" ∧ u.role = "user"
  · rcases hac : a.content with _ | s | ab <;> rcases huc : u.content with _ | s2 | ub <;>
      simp [intercept_websearch_in_request, hrev, hac, huc, hroles,
        processOuter_except_zero adapter hok]
  · simp [intercept_websearch_in_request, hrev, hroles]

/-- C10: With the real search adapter (`process_websearch_via_exa`, which
never raises: every failure of `ExaSearchAdapter.search` is returned as an
envelope), the interceptor's `except` branch — the one that would inject
`{"error": "Search failed: ...", "results": []}` — never runs, for any
conversation, credential and network behaviour. -/
theorem intercept_except_branch_unreachable (apiKey : String)
    (outcome : List (String × Json) → ExaSearchAdapter.HttpOutcome)
    (msgs : List Message) :
    (intercept_websearch_in_request (process_websearch_via_exa apiKey outcome) msgs).2.2 = 0 :=
  intercept_except_zero_of_ok _ (fun inp => ⟨_, rfl⟩) msgs

/-! ## Helper lemmas: streaming block framing -/

theorem convertStream_run (i : Nat) (ps : List String) (rest : List (Nat × String)) :
    convertStream (ps.map (fun p => (i, p)) ++ rest) (some i) =
      ps.map (fun p => OutEvent.delta i p) ++ convertStream rest (some i) := by
  induction ps with
  | nil => simp
  | cons p ps ih => simp [convertStream, ih]

theorem convertStream_stop (rs : List (Nat × List String)) (i : Nat)
    (hne : ∀ r ∈ rs, r.2 ≠ [])
    (hhead : ∀ r, rs.head? = some r → r.1 ≠ i) :
    convertStream (runsFlatten rs) (some i) =
      .stop i :: convertStream (runsFlatten rs) none := by
  cases rs with
  | nil => simp [runsFlatten, convertStream]
  | cons r rs2 =>
      rcases r with ⟨j, qs⟩
      have hj : j ≠ i := hhead (j, qs) rfl
      rcases qs with _ | ⟨q, qs2⟩
      · exact absurd rfl (hne (j, []) (List.mem_cons_self _ _))
      · simp [runsFlatten, convertStream, hj]

/-- Structural shape of the converted stream: each upstream block run of
deltas becomes exactly its `start · deltas · stop` segment, in order. -/
theorem streamOut_join (rs : List (Nat × List String))
    (hne : ∀ r ∈ rs, r.2 ≠ [])
    (hadj : rs.Chain' (fun r1 r2 => r1.1 ≠ r2.1)) :
    streamOut rs = (rs.map fun r => runEvents r.1 r.2).join := by
  induction rs with
  | nil => rfl
  | cons r rs2 ih =>
      rcases r with ⟨i, ps⟩
      rcases ps with _ | ⟨p, ps2⟩
      · exact absurd rfl (hne (i, []) (List.mem_cons_self _ _))
      have hne2 : ∀ x ∈ rs2, x.2 ≠ [] := fun x hx => hne x (List.mem_cons_of_mem _ hx)
      have hadj2 : rs2.Chain' (fun r1 r2 => r1.1 ≠ r2.1) := hadj.tail
      have hstop : convertStream (runsFlatten rs2) (some i) =
          .stop i :: convertStream (runsFlatten rs2) none := by
        cases rs2 with
        | nil => simp [runsFlatten, convertStream]
        | cons x xs =>
            have hx : (i, p :: ps2).1 ≠ x.1 := (List.chain'_cons.mp hadj).1
            refine convertStream_stop (x :: xs) i hne2 ?_
            intro y hy
            have hyx : y = x := by
              simp only [List.head?_cons, Option.some_inj] at hy
              exact hy.symm
            subst hyx
            exact fun hcon => hx (by simp [hcon])
      calc convertStream (runsFlatten ((i, p :: ps2) :: rs2)) none
          = .start i :: .delta i p ::
              convertStream (ps2.map (fun q => (i, q)) ++ runsFlatten rs2) (some i) := by
            simp [runsFlatten, convertStream]
        _ = .start i :: .delta i p :: (ps2.map (fun q => OutEvent.delta i q) ++
              convertStream (runsFlatten rs2) (some i)) := by
            rw [convertStream_run]
        _ = .start i :: .delta i p :: (ps2.map (fun q => OutEvent.delta i q) ++
              (.stop i :: streamOut rs2)) := by
            rw [hstop]; rfl
        _ = runEvents i (p :: ps2) ++ (rs2.map fun r => runEvents r.1 r.2).join := by
            rw [ih hne2 hadj2]
            simp [runEvents]
        _ = (((i, p :: ps2) :: rs2).map fun r => runEvents r.1 r.2).join := by
            simp

/-- The block index an output event belongs to. -/
def eventIndex : OutEvent → Nat
  | .start i => i
  | .delta i _ => i
  | .stop i => i

theorem idx_of_mem_runEvents (e : OutEvent) (j : Nat) (qs : List String)
    (h : e ∈ runEvents j qs) : eventIndex e = j := by
  simp only [runEvents, List.mem_cons, List.mem_append, List.mem_map] at h
  rcases h with rfl | ⟨q, hq, rfl⟩ | rfl | h3
  · rfl
  · rfl
  · rfl
  · cases h3

theorem idx_of_mem_join (e : OutEvent) (rs : List (Nat × List String))
    (h : e ∈ (rs.map fun r => runEvents r.1 r.2).join) :
    ∃ r ∈ rs, eventIndex e = r.1 := by
  rw [List.mem_join] at h
  obtain ⟨l, hl, hel⟩ := h
  rw [List.mem_map] at hl
  obtain ⟨r, hr, rfl⟩ := hl
  exact ⟨r, hr, idx_of_mem_runEvents e r.1 r.2 hel⟩

/-! ## Theorem for streaming block framing -/

/-- C6: For an upstream stream whose delta events arrive as one contiguous
run per block with strictly increasing block indices, the converted output
contains, for each block `i`, exactly one start event and exactly one stop
event, with the output decomposing as
`pre ++ [start i] ++ deltas of i ++ [stop i] ++ post` where every event in
`pre` belongs to a block before `i` (so the start precedes every delta of
`i`), every event in `post` belongs to a block after `i` (so the stop
follows the last delta of `i`), and the start event of block `i+1` does not
occur before the stop of block `i`. -/
theorem stream_block_framing (rs : List (Nat × List String))
    (hne : ∀ r ∈ rs, r.2 ≠ [])
    (hmono : rs.Pairwise (fun r1 r2 => r1.1 < r2.1))
    (i : Nat) (ps : List String) (hmem : (i, ps) ∈ rs) :
    ∃ pre post,
      streamOut rs =
        pre ++ [OutEvent.start i] ++ (ps.map fun p => OutEvent.delta i p) ++
          [OutEvent.stop i] ++ post ∧
      (streamOut rs).count (OutEvent.start i) = 1 ∧
      (streamOut rs).count (OutEvent.stop i) = 1 ∧
      (∀ e ∈ pre, eventIndex e < i) ∧
      (∀ e ∈ post, i < eventIndex e) ∧
      OutEvent.start (i + 1) ∉
        pre ++ [OutEvent.start i] ++ (ps.map fun p => OutEvent.delta i p) := by
  have hadj : rs.Chain' (fun r1 r2 => r1.1 ≠ r2.1) :=
    (hmono.chain').imp (fun _ _ hab => Nat.ne_of_lt hab)
  have hjoin := streamOut_join rs hne hadj
  obtain ⟨rs1, rs2, hsplit⟩ := List.append_of_mem hmem
  rw [hsplit] at hmono
  rw [List.pairwise_append] at hmono
  obtain ⟨h1, h2, hcross⟩ := hmono
  rw [List.pairwise_cons] at h2
  obtain ⟨hafter, hpw2⟩ := h2
  have hbefore : ∀ r ∈ rs1, r.1 < i :=
    fun r hr => hcross r hr (i, ps) (List.mem_cons_self _ _)
  have hpre : ∀ e ∈ (rs1.map fun r => runEvents r.1 r.2).join, eventIndex e < i := by
    intro e he
    obtain ⟨r, hr, heq⟩ := idx_of_mem_join e rs1 he
    rw [heq]
    exact hbefore r hr
  have hpost : ∀ e ∈ (rs2.map fun r => runEvents r.1 r.2).join, i < eventIndex e := by
    intro e he
    obtain ⟨r, hr, heq⟩ := idx_of_mem_join e rs2 he
    rw [heq]
    exact hafter r hr
  have hpre0 : ∀ ev : OutEvent, eventIndex ev = i →
      ((rs1.map fun r => runEvents r.1 r.2).join).count ev = 0 := by
    intro ev hev
    rw [List.count_eq_zero]
    intro hmem2
    have := hpre ev hmem2
    omega
  have hpost0 : ∀ ev : OutEvent, eventIndex ev = i →
      ((rs2.map fun r => runEvents r.1 r.2).join).count ev = 0 := by
    intro ev hev
    rw [List.count_eq_zero]
    intro hmem2
    have := hpost ev hmem2
    omega
  have hdec : streamOut rs =
      (rs1.map fun r => runEvents r.1 r.2).join ++ [OutEvent.start i] ++
        (ps.map fun p => OutEvent.delta i p) ++ [OutEvent.stop i] ++
        (rs2.map fun r => runEvents r.1 r.2).join := by
    rw [hjoin, hsplit]
    simp [runEvents, List.join_append]
  have hdstart : (ps.map fun p => OutEvent.delta i p).count (OutEvent.start i) = 0 := by
    rw [List.count_eq_zero]
    intro hmem2
    rw [List.mem_map] at hmem2
    obtain ⟨p, _, hp⟩ := hmem2
    cases hp
  have hdstop : (ps.map fun p => OutEvent.delta i p).count (OutEvent.stop i) = 0 := by
    rw [List.count_eq_zero]
    intro hmem2
    rw [List.mem_map] at hmem2
    obtain ⟨p, _, hp⟩ := hmem2
    cases hp
  refine ⟨(rs1.map fun r => runEvents r.1 r.2).join,
    (rs2.map fun r => runEvents r.1 r.2).join, hdec, ?_, ?_, hpre, hpost, ?_⟩
  · rw [hdec]
    simp only [List.count_append, hpre0 (OutEvent.start i) rfl, hpost0 (OutEvent.start i) rfl,
      hdstart]
    have hs : ([OutEvent.stop i] : List OutEvent).count (OutEvent.start i) = 0 := by
      rw [List.count_eq_zero]
      simp
    have hst : ([OutEvent.start i] : List OutEvent).count (OutEvent.start i) = 1 := by
      simp
    omega
  · rw [hdec]
    simp only [List.count_append, hpre0 (OutEvent.stop i) rfl, hpost0 (OutEvent.stop i) rfl,
      hdstop]
    have hs : ([OutEvent.start i] : List OutEvent).count (OutEvent.stop i) = 0 := by
      rw [List.count_eq_zero]
      simp
    have hst : ([OutEvent.stop i] : List OutEvent).count (OutEvent.stop i) = 1 := by
      simp
    omega
  · intro hmem2
    rw [List.mem_append, List.mem_append] at hmem2
    rcases hmem2 with (hmem3 | hmem3) | hmem3
    · have := hpre _ hmem3
      simp [eventIndex] at this
    · rw [List.mem_singleton] at hmem3
      have : i + 1 = i := by cases hmem3
      omega
    · rw [List.mem_map] at hmem3
      obtain ⟨p, _, hp⟩ := hmem3
      cases hp

/-- Witness for `stream_block_framing`: two single-delta blocks 0 and 1. -/
theorem stream_block_framing_witness :
    ∃ pre post,
      streamOut [(0, ["a"]), (1, ["b"])] =
        pre ++ [OutEvent.start 0] ++ ([.delta 0 "a"] : List OutEvent) ++
          [OutEvent.stop 0] ++ post ∧
      (streamOut [(0, ["a"]), (1, ["b"])]).count (OutEvent.start 0) = 1 ∧
      (streamOut [(0, ["a"]), (1, ["b"])]).count (OutEvent.stop 0) = 1 ∧
      (∀ e ∈ pre, eventIndex e < 0) ∧
      (∀ e ∈ post, 0 < eventIndex e) ∧
      OutEvent.start 1 ∉ pre ++ [OutEvent.start 0] ++ ([.delta 0 "a"] : List OutEvent) :=
  stream_block_framing [(0, ["a"]), (1, ["b"])] (by decide) (by decide) 0 ["a"] (by decide)
